import Mathlib

/-!
# Verification of the goxec job-dispatch and execution pipeline

Shallow embedding of the goxec source (Go) in Lean 4, together with proofs
about the embedded definitions.

Conventions used throughout:
* Go `string` / `[]byte` values are embedded as `List Char`.
* Go `float64` token-bucket arithmetic is embedded as exact `ℚ` arithmetic;
  the algorithmic structure (comparisons, clamping) is taken verbatim from
  the source.
* Go `time.Time` values are embedded as `ℚ` timestamps (seconds); elapsed
  seconds are plain subtraction.
* Fallible operations return `Option` / `Except`.
-/

namespace Goxec

/-! ## Token-bucket rate limiter

Embedded from `internal/platform/web/ratelimit.go`.
-/

/-- Per-visitor token bucket state, from `type Client struct` in
`ratelimit.go` (the mutex is concurrency plumbing and has no arithmetic
content). -/
structure Client where
  tokens : ℚ
  lastRefill : ℚ
  deriving Repr, DecidableEq

/-- Rate-limiter parameters, from `type RateLimiter struct` in
`ratelimit.go` (the map and locks are modelled separately). -/
structure RateLimiterCfg where
  rate : ℚ
  capacity : ℚ
  deriving Repr, DecidableEq

/-- Bucket creation on first request from an address, from the slow path of
`getClient` in `ratelimit.go`: `tokens: rl.capacity, lastRefill: time.Now()`. -/
def newClient (rl : RateLimiterCfg) (now : ℚ) : Client :=
  { tokens := rl.capacity, lastRefill := now }

/-- One admission check, from `Allow` in `ratelimit.go` (lines 83–111).
Returns the updated bucket and whether the request is admitted. -/
def allow (rl : RateLimiterCfg) (c : Client) (now : ℚ) : Client × Bool :=
  let elapsed := now - c.lastRefill
  let tokensToAdd := elapsed * rl.rate
  let c1 :=
    if tokensToAdd > 0 then
      let t := c.tokens + tokensToAdd
      let t := if t > rl.capacity then rl.capacity else t
      { tokens := t, lastRefill := now }
    else c
  if c1.tokens ≥ 1 then ({ c1 with tokens := c1.tokens - 1 }, true)
  else (c1, false)

/-- HTTP disposition of an admission check, from `RateLimitMiddleware` in
`ratelimit.go`: a denied request is answered with status 429, an admitted
request proceeds to the wrapped handler's status. -/
def rateLimitMiddleware (allowed : Bool) (nextStatus : ℕ) : ℕ :=
  if allowed then nextStatus else 429

/-- The refill value named by the specification: `min(capacity, t + Δ·rate)`
for elapsed time `Δ = now − last_refill`. Stated from the spec's words, to be
compared with what `allow` computes. -/
def specRefill (rl : RateLimiterCfg) (c : Client) (now : ℚ) : ℚ :=
  min rl.capacity (c.tokens + (now - c.lastRefill) * rl.rate)

/-! ## Domain data model

Embedded from `internal/domain/runner.go`. The `ResultCh` channel field is
concurrency plumbing and is not part of the value model.
-/

/-- A unit of work, from `type Job struct` in `internal/domain/runner.go`.
`rawID` is the Redis stream entry id (`RawID`, JSON tag `-`). -/
structure Job where
  id : List Char
  code : List Char
  language : List Char
  rawID : List Char
  deriving Repr, DecidableEq

/-- The zero value of `domain.Job`, as produced by `var job domain.Job`
before `json.Unmarshal` fills it in. -/
def zeroJob : Job := ⟨[], [], [], []⟩

/-! ## WebSocket session table

Embedded from `cmd/server/main.go`: the process-global
`clientHub = make(map[string]*websocket.Conn)` keyed by job id, the
registration in `handleWS` and the deferred disconnect cleanup.
Connections are identified by an abstract `ℕ` handle.
-/

/-- The session table: jobID → connection handle.  A Go map is a finite
partial function; lookup misses are `none`. -/
def Hub : Type := List Char → Option ℕ

/-- The initially empty `clientHub`. -/
def emptyHub : Hub := fun _ => none

/-- Session registration, from `handleWS` step 3:
`clientHub[jobID] = conn` (an unconditional map store, overwriting any
previous registration for the same job id). -/
def wsRegister (jobID : List Char) (conn : ℕ) (h : Hub) : Hub :=
  fun k => if k = jobID then some conn else h k

/-- Disconnect cleanup, from the deferred function in `handleWS` step 4:
`delete(clientHub, jobID)` — keyed by job id only, with no check that the
stored connection is the one being cleaned up. -/
def wsCleanup (jobID : List Char) (h : Hub) : Hub :=
  fun k => if k = jobID then none else h k

/-! ## Worker pool

Embedded from `internal/worker` (`Pool.worker`).
-/

/-- A Go `context.Context` as far as deadlines are concerned. -/
structure GoContext where
  deadline : Option ℚ
  deriving Repr, DecidableEq

/-- `context.Background()`: a context with no deadline. -/
def contextBackground : GoContext := ⟨none⟩

/-- The runner invocation a worker performs for one received job. -/
structure RunnerInvocation where
  ctx : GoContext
  code : List Char
  language : List Char
  deriving Repr, DecidableEq

/-- From the body of `Pool.worker`: `ctx := context.Background()` followed by
`p.runner.Run(ctx, job.Code, job.Language)`. -/
def workerInvocation (job : Job) : RunnerInvocation :=
  ⟨contextBackground, job.code, job.language⟩

/-! ## Container runner

Embedded from `internal/platform/docker/client.go` (`Client.Run`).
-/

/-- The failure kinds the specification names for `run`. -/
inductive RunFailure where
  | imagePullFailed
  | containerCreateFailed
  | containerStartFailed
  | timeout
  | runtimeError
  | languageUnsupported
  deriving Repr, DecidableEq

/-- Image resolution in `Run` (line 54): the image name is the hard-coded
constant `python:alpine`, whatever the language tag is. -/
def imageForLanguage (language : List Char) : List Char :=
  "python:alpine".toList

/-- Container command construction in `Run` (line 72):
`Cmd: []string{"python", "-c", code}`, whatever the language tag is. -/
def containerCmd (code language : List Char) : List (List Char) :=
  ["python".toList, "-c".toList, code]

/-- The language-validation outcome of `Run`: the function never inspects
`language` and never fails with a language error (there is no
`LanguageUnsupported` path in the source). -/
def languageCheck (language : List Char) : Option RunFailure :=
  none

/-! ## Job stream: entries and recovery

Embedded from `internal/platform/queue/redis.go`.
-/

/-- A Redis stream entry as the consumers see it: the entry id and the
field/value map (`msg.ID`, `msg.Values`; go-redis delivers values as
strings). -/
structure StreamEntry where
  id : List Char
  values : List (List Char × List Char)
  deriving Repr, DecidableEq

/-- A pending-list entry as seen by the recovery routine; `deliveryCount` is
the stream-maintained delivery counter (`XDeliveryCount`), which the source
mentions in comments but never reads. -/
structure PendingMsg where
  id : List Char
  values : List (List Char × List Char)
  deliveryCount : ℕ
  deriving Repr, DecidableEq

/-- Effects the recovery routine can issue per claimed entry.
`ack` is `XACK`; `dlqPublish` would be an `XADD` to the dead-letter sink
(the constructor exists so its absence from the code's output can be
stated). -/
inductive RecoveryAction where
  | ack (entryId : List Char)
  | dlqPublish (payload : List (List Char × List Char))
  | redeliver (msg : PendingMsg)
  deriving Repr, DecidableEq

/-- Processing of one claimed batch in `StartRecoveryRoutine`
(redis.go lines 255–261): for every claimed message the routine logs a
warning and immediately calls `r.client.XAck(...)` — the delivery count is
never consulted, nothing is re-delivered, and nothing is published to a
dead-letter sink. -/
def recoveryTickActions (claimed : List PendingMsg) : List RecoveryAction :=
  claimed.map (fun m => RecoveryAction.ack m.id)

/-! ## JSON serialization

The source serializes jobs and results with Go's `encoding/json`
(`json.Marshal` / `json.Unmarshal`).  The encoder below reproduces
`encoding/json`'s output for structs of string fields: fields in
declaration order, no whitespace, strings escaped exactly as Go's encoder
does: backslash escapes for quote, backslash, newline, carriage return and
tab, hex escapes for other control characters, and HTML escaping of the
angle brackets, the ampersand and the U+2028/U+2029 separators.  The
decoder reproduces `encoding/json`'s behaviour on the payloads this system
exchanges: a JSON object whose values are strings, with unknown keys
ignored and missing keys leaving the zero value; any other input is a
parse error (as it is for `json.Unmarshal` into these structs).
-/

/-- Lower-case hex digit, as in Go's encoder table `"0123456789abcdef"`. -/
def toHexDigit (n : ℕ) : Char :=
  if n < 10 then Char.ofNat (48 + n) else Char.ofNat (87 + n)

/-- Hex digit value; accepts both cases, as Go's decoder does. -/
def fromHexDigit (c : Char) : Option ℕ :=
  if 48 ≤ c.toNat ∧ c.toNat ≤ 57 then some (c.toNat - 48)
  else if 97 ≤ c.toNat ∧ c.toNat ≤ 102 then some (c.toNat - 87)
  else if 65 ≤ c.toNat ∧ c.toNat ≤ 70 then some (c.toNat - 55)
  else none

/-- A `\uXXXX` escape for a code point below `0x10000`. -/
def hexEscape (n : ℕ) : List Char :=
  ['\\', 'u', toHexDigit (n / 4096 % 16), toHexDigit (n / 256 % 16),
   toHexDigit (n / 16 % 16), toHexDigit (n % 16)]

/-- Go `encoding/json` string escaping of one character (with the default
HTML escaping that `json.Marshal` applies). -/
def escapeChar (c : Char) : List Char :=
  if c = '"' then ['\\', '"']
  else if c = '\\' then ['\\', '\\']
  else if c = '\n' then ['\\', 'n']
  else if c = '\r' then ['\\', 'r']
  else if c = '\t' then ['\\', 't']
  else if c = '<' ∨ c = '>' ∨ c = '&' then hexEscape c.toNat
  else if c.toNat < 32 then hexEscape c.toNat
  else if c.toNat = 8232 ∨ c.toNat = 8233 then hexEscape c.toNat
  else [c]

/-- Escape a whole string. -/
def escapeString : List Char → List Char
  | [] => []
  | c :: cs => escapeChar c ++ escapeString cs

/-- A JSON string literal. -/
def renderString (s : List Char) : List Char :=
  '"' :: escapeString s ++ ['"']

/-- One `"key":"value"` member. -/
def renderField (k v : List Char) : List Char :=
  renderString k ++ ':' :: renderString v

/-- Comma-separated object members. -/
def renderFields : List (List Char × List Char) → List Char
  | [] => []
  | [f] => renderField f.1 f.2
  | f :: fs => renderField f.1 f.2 ++ ',' :: renderFields fs

/-- A JSON object of string fields, as `json.Marshal` renders it. -/
def renderObj (fs : List (List Char × List Char)) : List Char :=
  '{' :: renderFields fs ++ ['}']

/-- Decoding of a simple (single-character) escape, as Go's decoder does. -/
def unescapeSimple (e : Char) : Option Char :=
  if e = '"' then some '"'
  else if e = '\\' then some '\\'
  else if e = '/' then some '/'
  else if e = 'n' then some '\n'
  else if e = 'r' then some '\r'
  else if e = 't' then some '\t'
  else if e = 'b' then some (Char.ofNat 8)
  else if e = 'f' then some (Char.ofNat 12)
  else none

/-- Parse the body of a JSON string literal (after the opening quote),
returning the decoded content and the input after the closing quote.
Unescaped control characters are rejected, as Go's scanner rejects them. -/
def parseStringBody : List Char → Option (List Char × List Char)
  | [] => none
  | c :: rest =>
    if c = '"' then some ([], rest)
    else if c = '\\' then
      match rest with
      | [] => none
      | e :: rest1 =>
        if e = 'u' then
          match rest1 with
          | d1 :: d2 :: d3 :: d4 :: rest2 =>
            match fromHexDigit d1, fromHexDigit d2, fromHexDigit d3, fromHexDigit d4 with
            | some n1, some n2, some n3, some n4 =>
              (parseStringBody rest2).map
                (fun pr => (Char.ofNat (n1 * 4096 + n2 * 256 + n3 * 16 + n4) :: pr.1, pr.2))
            | _, _, _, _ => none
          | _ => none
        else
          match unescapeSimple e with
          | none => none
          | some ch =>
            (parseStringBody rest1).map (fun pr => (ch :: pr.1, pr.2))
    else if c.toNat < 32 then none
    else (parseStringBody rest).map (fun pr => (c :: pr.1, pr.2))

/-- Parse the members of a JSON object of string fields, after the opening
brace of a non-empty object; consumes through the closing brace.  `fuel`
bounds the number of members (callers pass the input length, which always
suffices). -/
def parseObjFields : ℕ → List Char → Option (List (List Char × List Char) × List Char)
  | 0, _ => none
  | fuel + 1, input =>
    match input with
    | '"' :: rest0 =>
      match parseStringBody rest0 with
      | none => none
      | some (key, rest1) =>
        match rest1 with
        | ':' :: '"' :: rest2 =>
          match parseStringBody rest2 with
          | none => none
          | some (val, rest3) =>
            match rest3 with
            | ',' :: rest4 =>
              (parseObjFields fuel rest4).map (fun pr => ((key, val) :: pr.1, pr.2))
            | '}' :: rest4 => some ([(key, val)], rest4)
            | _ => none
        | _ => none
    | _ => none

/-- Parse a complete JSON object of string fields, requiring the input to be
exhausted (as `json.Unmarshal` rejects trailing data after the value). -/
def parseTopObject (input : List Char) : Option (List (List Char × List Char)) :=
  match input with
  | '{' :: '}' :: rest => if rest = [] then some [] else none
  | '{' :: rest =>
    match parseObjFields (rest.length + 1) rest with
    | some (fs, rest2) => if rest2 = [] then some fs else none
    | none => none
  | _ => none

/-- `json.Marshal` of a `domain.Job`: the tagged fields `id`, `code`,
`language` in declaration order; `RawID` (tag `-`) and `ResultCh` (tag `-`)
are omitted. -/
def marshalJob (j : Job) : List Char :=
  renderObj [("id".toList, j.id), ("code".toList, j.code), ("language".toList, j.language)]

/-- One field assignment of `json.Unmarshal` into `domain.Job`: a key is
matched against the field tags, unknown keys are ignored. -/
def assignJobField (j : Job) (kv : List Char × List Char) : Job :=
  if kv.1 = "id".toList then { j with id := kv.2 }
  else if kv.1 = "code".toList then { j with code := kv.2 }
  else if kv.1 = "language".toList then { j with language := kv.2 }
  else j

/-- `json.Unmarshal` of a `domain.Job`: parse the object, then assign the
members in order over the zero value. -/
def unmarshalJob (input : List Char) : Option Job :=
  (parseTopObject input).map (fun fs => fs.foldl assignJobField zeroJob)

/-- `RedisQueue.Publish`: `XADD` one entry whose single field `job` holds
the marshalled job; the stream assigns the entry id. -/
def publishEntry (entryId : List Char) (j : Job) : StreamEntry :=
  ⟨entryId, [("job".toList, marshalJob j)]⟩

/-- The per-entry decode step of `RedisQueue.Subscribe`: read the `job`
field (skip if absent), unmarshal it (skip on error), then set `RawID` to
the stream entry id. -/
def decodeEntry (msg : StreamEntry) : Option Job :=
  match msg.values.lookup "job".toList with
  | none => none
  | some val =>
    match unmarshalJob val with
    | none => none
    | some job => some { job with rawID := msg.id }

/-- What the subscriber does with one stream entry. -/
inductive SubAction where
  | deliver (j : Job)
  | skip
  deriving Repr, DecidableEq

/-- The message-handling branch of `RedisQueue.Subscribe` (redis.go lines
117–135): on a missing/ill-typed `job` field, log and `continue`; on an
unmarshal error, log and `continue`; otherwise deliver the job with `RawID`
set.  The components are (action, XACK calls issued, error logs emitted) —
the loop contains no `XAck` call on any path. -/
def subscribeHandle (msg : StreamEntry) :
    SubAction × List (List Char) × List (List Char) :=
  match msg.values.lookup "job".toList with
  | none => (SubAction.skip, [], ["Invalid message format".toList])
  | some val =>
    match unmarshalJob val with
    | none => (SubAction.skip, [], ["Failed to unmarshal job".toList])
    | some job => (SubAction.deliver { job with rawID := msg.id }, [], [])

/-- `json.Marshal` of a `domain.JobResult` as `RedisQueue.Broadcast`
publishes it: tagged fields `job_id` and `output`; the `Error` field (tag
`-`) is omitted from the wire format. -/
def marshalJobResult (jobID output : List Char) : List Char :=
  renderObj [("job_id".toList, jobID), ("output".toList, output)]

/-- The output string the worker broadcasts, from `cmd/worker/main.go`
lines 77–80: the runner output, or `"Error: <err>"` when the runner
failed. -/
def workerOutput (output : List Char) (error : Option (List Char)) : List Char :=
  match error with
  | none => output
  | some e => "Error: ".toList ++ e

/-- All frames the worker publishes to the log bus for one finished job
(`cmd/worker/main.go` lines 62–91): exactly one broadcast, carrying the
marshalled result. -/
def workerFrames (jobID output : List Char) (error : Option (List Char)) :
    List (List Char) :=
  [marshalJobResult jobID (workerOutput output error)]

/-! ## Bounded log capture

Embedded from `internal/platform/docker/client.go`: the `limitedBuffer`
writer, the `stdcopy.StdCopy` demultiplexing loop driving it (which stops
at the first write error), and the error disposition in `Run` step 6.
-/

/-- The log cap from `Run`: `const maxLogSize = 1 * 1024 * 1024`. -/
def maxLogSize : ℕ := 1048576

/-- The literal truncation marker appended by `limitedBuffer.Write`. -/
def logTruncatedMarker : List Char := "\n<LOG TRUNCATED>".toList

/-- `type limitedBuffer struct`: the accumulated bytes and the hard limit. -/
structure limitedBuffer where
  buf : List Char
  limit : ℕ
  deriving Repr, DecidableEq

/-- A fresh buffer as `Run` creates it: empty, limit `maxLogSize`. -/
def newLimitedBuffer : limitedBuffer := ⟨[], maxLogSize⟩

/-- `limitedBuffer.Write` (client.go lines 158–169).  Returns the updated
buffer, the reported byte count `n` (a Go `int`, hence `ℤ`), and whether
the sentinel `errLogLimitExceeded` was returned. -/
def lbWrite (l : limitedBuffer) (p : List Char) : limitedBuffer × ℤ × Bool :=
  if l.buf.length + p.length > l.limit then
    -- `remaining := l.limit - l.buf.Len()` (a Go int), inlined below
    if (l.limit : ℤ) - (l.buf.length : ℤ) > 0 then
      ({ l with buf := l.buf ++ p.take ((l.limit : ℤ) - (l.buf.length : ℤ)).toNat
                  ++ logTruncatedMarker },
       (l.limit : ℤ) - (l.buf.length : ℤ), true)
    else (l, (l.limit : ℤ) - (l.buf.length : ℤ), true)
  else ({ l with buf := l.buf ++ p }, (p.length : ℤ), false)

/-- The `stdcopy.StdCopy` loop over the demultiplexed frames: each frame is
written to the stdout or the stderr buffer, and the copy aborts at the
first write error (returning that error, here the only possible one —
`errLogLimitExceeded`).  The result is the two buffers and whether the
copy stopped with that error. -/
def stdCopy : List (Bool × List Char) → limitedBuffer → limitedBuffer →
    limitedBuffer × limitedBuffer × Bool
  | [], o, e => (o, e, false)
  | (isStdout, p) :: rest, o, e =>
    if isStdout then
      match lbWrite o p with
      | (o2, _, true) => (o2, e, true)
      | (o2, _, false) => stdCopy rest o2 e
    else
      match lbWrite e p with
      | (e2, _, true) => (o, e2, true)
      | (e2, _, false) => stdCopy rest o e2

/-- Steps 6–7 of `Run`: drive `stdcopy` into two fresh capped buffers; an
`errLogLimitExceeded` outcome is logged as a warning and explicitly *not*
treated as a failure (`errors.Is(err, errLogLimitExceeded)`); the result is
the concatenation `stdout || stderr`. -/
def captureLogs (frames : List (Bool × List Char)) : Except (List Char) (List Char) :=
  match stdCopy frames newLimitedBuffer newLimitedBuffer with
  | (o, e, limitExceeded) =>
    if limitExceeded then Except.ok (o.buf ++ e.buf)
    else Except.ok (o.buf ++ e.buf)

/-- The exhaustive description of one `limitedBuffer.Write` call on a
buffer within its limit: either the write fits (no error, bytes appended,
still within the limit); or it overflows a buffer that still has room (the
fitting prefix is written, the marker is appended exactly once at the end,
and the buffer reaches exactly `limit + marker` length); or it overflows a
buffer that is already exactly full (the error is returned and nothing at
all — in particular no marker — is appended). -/
def lbWriteOutcome (l : limitedBuffer) (p : List Char) : Prop :=
  ((lbWrite l p).2.2 = false ∧ (lbWrite l p).1.buf = l.buf ++ p ∧
    (lbWrite l p).1.buf.length ≤ l.limit) ∨
  ((lbWrite l p).2.2 = true ∧ l.buf.length < l.limit ∧
    (lbWrite l p).1.buf = l.buf ++ p.take (l.limit - l.buf.length) ++ logTruncatedMarker ∧
    (lbWrite l p).1.buf.length = l.limit + logTruncatedMarker.length ∧
    logTruncatedMarker <:+ (lbWrite l p).1.buf) ∨
  ((lbWrite l p).2.2 = true ∧ l.buf.length = l.limit ∧ (lbWrite l p).1.buf = l.buf)

end Goxec

namespace Goxec

/-- C5: For every admission check on an address whose bucket holds `t` tokens
with last refill time `r`: with `Δ` the elapsed seconds since `r`, the
bucket's tokens become `min(capacity, t + Δ·rate)`; the request is admitted
(and one token consumed) exactly when that value is at least 1, and otherwise
the request is denied with 429. -/
theorem allow_lazy_refill_admission (rl : RateLimiterCfg) (c : Client) (now : ℚ)
    (htok : 0 ≤ c.tokens) (hcap : c.tokens ≤ rl.capacity)
    (hrate : 0 ≤ rl.rate) (hnow : c.lastRefill ≤ now) :
    ((allow rl c now).2 = true ↔ 1 ≤ specRefill rl c now) ∧
    (allow rl c now).1.tokens =
      (if 1 ≤ specRefill rl c now then specRefill rl c now - 1
       else specRefill rl c now) ∧
    rateLimitMiddleware (allow rl c now).2 200 =
      (if 1 ≤ specRefill rl c now then 200 else 429) := by
  have hΔ : 0 ≤ (now - c.lastRefill) * rl.rate :=
    mul_nonneg (by linarith) hrate
  unfold allow specRefill rateLimitMiddleware
  by_cases hpos : (now - c.lastRefill) * rl.rate > 0
  · simp only [hpos, if_true]
    by_cases hover : c.tokens + (now - c.lastRefill) * rl.rate > rl.capacity
    · have hmin : min rl.capacity (c.tokens + (now - c.lastRefill) * rl.rate)
          = rl.capacity := min_eq_left (by linarith)
      simp only [hover, if_true, hmin]
      by_cases hge : (1 : ℚ) ≤ rl.capacity
      · simp [ge_iff_le, hge]
      · simp [ge_iff_le, hge]
    · have hmin : min rl.capacity (c.tokens + (now - c.lastRefill) * rl.rate)
          = c.tokens + (now - c.lastRefill) * rl.rate :=
        min_eq_right (by linarith)
      simp only [hover, if_false, hmin]
      by_cases hge : (1 : ℚ) ≤ c.tokens + (now - c.lastRefill) * rl.rate
      · simp [ge_iff_le, hge]
      · simp [ge_iff_le, hge]
  · have hzero : (now - c.lastRefill) * rl.rate = 0 := le_antisymm (not_lt.mp hpos) hΔ
    have hmin : min rl.capacity (c.tokens + (now - c.lastRefill) * rl.rate)
        = c.tokens := by rw [hzero, add_zero]; exact min_eq_right hcap
    simp only [hpos, if_false, hmin]
    by_cases hge : (1 : ℚ) ≤ c.tokens
    · simp [ge_iff_le, hge]
    · simp [ge_iff_le, hge]

/-- Witness for `allow_lazy_refill_admission` at the source's default
parameters (rate = 0.5, capacity = 5) on a bucket holding 3 tokens after 4
seconds of quiescence. -/
theorem allow_lazy_refill_admission_witness :
    ((allow ⟨1/2, 5⟩ ⟨3, 0⟩ 4).2 = true ↔ 1 ≤ specRefill ⟨1/2, 5⟩ ⟨3, 0⟩ 4) ∧
    (allow ⟨1/2, 5⟩ ⟨3, 0⟩ 4).1.tokens =
      (if 1 ≤ specRefill ⟨1/2, 5⟩ ⟨3, 0⟩ 4 then specRefill ⟨1/2, 5⟩ ⟨3, 0⟩ 4 - 1
       else specRefill ⟨1/2, 5⟩ ⟨3, 0⟩ 4) ∧
    rateLimitMiddleware (allow ⟨1/2, 5⟩ ⟨3, 0⟩ 4).2 200 =
      (if 1 ≤ specRefill ⟨1/2, 5⟩ ⟨3, 0⟩ 4 then 200 else 429) :=
  allow_lazy_refill_admission ⟨1/2, 5⟩ ⟨3, 0⟩ 4
    (by norm_num) (by norm_num) (by norm_num) (by norm_num)

/-- C8: For every client bucket, assuming `rate ≥ 0`, `capacity ≥ 0` and
non-negative elapsed time, the invariant `0 ≤ tokens ≤ capacity` holds after
bucket creation and is preserved by every admission check, and `last_refill`
never moves backwards. -/
theorem bucket_invariant_preserved (rl : RateLimiterCfg) (c : Client) (now₀ now : ℚ)
    (hcap : 0 ≤ rl.capacity) (hrate : 0 ≤ rl.rate)
    (htok : 0 ≤ c.tokens) (htokcap : c.tokens ≤ rl.capacity)
    (hnow : c.lastRefill ≤ now) :
    (0 ≤ (newClient rl now₀).tokens ∧ (newClient rl now₀).tokens ≤ rl.capacity) ∧
    (0 ≤ (allow rl c now).1.tokens ∧ (allow rl c now).1.tokens ≤ rl.capacity) ∧
    c.lastRefill ≤ (allow rl c now).1.lastRefill := by
  refine ⟨⟨hcap, le_refl _⟩, ?_⟩
  have hΔ : 0 ≤ (now - c.lastRefill) * rl.rate :=
    mul_nonneg (by linarith) hrate
  unfold allow
  by_cases hpos : (now - c.lastRefill) * rl.rate > 0
  · simp only [hpos, if_true]
    by_cases hover : c.tokens + (now - c.lastRefill) * rl.rate > rl.capacity
    · simp only [hover, if_true]
      by_cases hge : (1 : ℚ) ≤ rl.capacity
      · simp only [ge_iff_le, hge, if_true]
        refine ⟨⟨?_, ?_⟩, ?_⟩ <;> (try simp) <;> linarith
      · simp only [ge_iff_le, hge, if_false]
        refine ⟨⟨?_, ?_⟩, ?_⟩ <;> (try simp) <;> linarith
    · simp only [hover, if_false]
      by_cases hge : (1 : ℚ) ≤ c.tokens + (now - c.lastRefill) * rl.rate
      · simp only [ge_iff_le, hge, if_true]
        refine ⟨⟨?_, ?_⟩, ?_⟩ <;> (try simp) <;> linarith [not_lt.mp hover]
      · simp only [ge_iff_le, hge, if_false]
        refine ⟨⟨?_, ?_⟩, ?_⟩ <;> (try simp) <;> linarith [not_lt.mp hover]
  · simp only [hpos, if_false]
    by_cases hge : (1 : ℚ) ≤ c.tokens
    · simp only [ge_iff_le, hge, if_true]
      refine ⟨⟨?_, ?_⟩, ?_⟩ <;> (try simp) <;> linarith
    · simp only [ge_iff_le, hge, if_false]
      exact ⟨⟨htok, htokcap⟩, le_refl _⟩

/-- Witness for `bucket_invariant_preserved` at the default parameters on a
concrete bucket. -/
theorem bucket_invariant_preserved_witness :
    (0 ≤ (newClient ⟨1/2, 5⟩ 7).tokens ∧ (newClient ⟨1/2, 5⟩ 7).tokens ≤ (5 : ℚ)) ∧
    (0 ≤ (allow ⟨1/2, 5⟩ ⟨3, 0⟩ 4).1.tokens ∧
      (allow ⟨1/2, 5⟩ ⟨3, 0⟩ 4).1.tokens ≤ (5 : ℚ)) ∧
    (0 : ℚ) ≤ (allow ⟨1/2, 5⟩ ⟨3, 0⟩ 4).1.lastRefill :=
  bucket_invariant_preserved ⟨1/2, 5⟩ ⟨3, 0⟩ 7 4
    (by norm_num) (by norm_num) (by norm_num) (by norm_num) (by norm_num)

/-! ### JSON round-trip lemmas -/

/-- Hex digits decode back to their value. -/
theorem fromHexDigit_toHexDigit (n : ℕ) (h : n < 16) :
    fromHexDigit (toHexDigit n) = some n := by
  interval_cases n <;> decide

/-- A `\uXXXX` escape of a character below `0x10000` parses back to that
character, continuing with the rest of the string body. -/
theorem parseStringBody_hexEscape (c : Char) (cs rest tl : List Char)
    (hc : c.toNat < 65536)
    (ht : parseStringBody tl = some (cs, rest)) :
    parseStringBody (hexEscape c.toNat ++ tl) = some (c :: cs, rest) := by
  have e1 : fromHexDigit (toHexDigit (c.toNat / 4096 % 16)) = some (c.toNat / 4096 % 16) :=
    fromHexDigit_toHexDigit _ (by omega)
  have e2 : fromHexDigit (toHexDigit (c.toNat / 256 % 16)) = some (c.toNat / 256 % 16) :=
    fromHexDigit_toHexDigit _ (by omega)
  have e3 : fromHexDigit (toHexDigit (c.toNat / 16 % 16)) = some (c.toNat / 16 % 16) :=
    fromHexDigit_toHexDigit _ (by omega)
  have e4 : fromHexDigit (toHexDigit (c.toNat % 16)) = some (c.toNat % 16) :=
    fromHexDigit_toHexDigit _ (by omega)
  have hsum : c.toNat / 4096 % 16 * 4096 + c.toNat / 256 % 16 * 256 +
      c.toNat / 16 % 16 * 16 + c.toNat % 16 = c.toNat := by omega
  simp only [hexEscape, List.cons_append]
  rw [parseStringBody.eq_def]
  simp [e1, e2, e3, e4, ht, hsum, Char.ofNat_toNat]

/-- Go-escaping a string and parsing the result back as a string body (up
to a closing quote) recovers the original string. -/
theorem parseStringBody_escapeString (s rest : List Char) :
    parseStringBody (escapeString s ++ '"' :: rest) = some (s, rest) := by
  induction s with
  | nil =>
    simp only [escapeString, List.nil_append]
    rw [parseStringBody.eq_def]; simp
  | cons c cs ih =>
    simp only [escapeString, List.append_assoc]
    unfold escapeChar
    split_ifs with h1 h2 h3 h4 h5 h6 h7 h8
    · subst h1; simp only [List.cons_append, List.nil_append]
      rw [parseStringBody.eq_def]; simp [unescapeSimple, ih]
    · subst h2; simp only [List.cons_append, List.nil_append]
      rw [parseStringBody.eq_def]; simp [unescapeSimple, ih]
    · subst h3; simp only [List.cons_append, List.nil_append]
      rw [parseStringBody.eq_def]; simp [unescapeSimple, ih]
    · subst h4; simp only [List.cons_append, List.nil_append]
      rw [parseStringBody.eq_def]; simp [unescapeSimple, ih]
    · subst h5; simp only [List.cons_append, List.nil_append]
      rw [parseStringBody.eq_def]; simp [unescapeSimple, ih]
    · refine parseStringBody_hexEscape c cs rest _ ?_ ih
      rcases h6 with h | h | h <;> subst h <;> decide
    · exact parseStringBody_hexEscape c cs rest _ (by omega) ih
    · refine parseStringBody_hexEscape c cs rest _ ?_ ih
      rcases h8 with h | h <;> omega
    · simp only [List.cons_append, List.nil_append]
      rw [parseStringBody.eq_def]; simp [h1, h2, h7, ih]

/-- Rendered members are at least as long as the member list. -/
theorem renderFields_length_le : ∀ fs : List (List Char × List Char),
    fs.length ≤ (renderFields fs).length := by
  intro fs
  induction fs with
  | nil => simp [renderFields]
  | cons f fs ih =>
    cases fs with
    | nil =>
      show 1 ≤ (renderFields [f]).length
      rw [show renderFields [f] = renderField f.1 f.2 from rfl]
      simp [renderField, renderString]
    | cons g fs2 =>
      rw [show renderFields (f :: g :: fs2)
          = renderField f.1 f.2 ++ ',' :: renderFields (g :: fs2) from rfl]
      simp only [List.length_append, List.length_cons] at ih ⊢
      omega

/-- A rendered non-empty member list starts with a double quote. -/
theorem renderFields_cons_head (k v : List Char) (fs : List (List Char × List Char)) :
    ∃ t, renderFields ((k, v) :: fs) = '"' :: t := by
  cases fs with
  | nil =>
    rw [show renderFields [(k, v)] = renderField k v from rfl]
    simp only [renderField, renderString, List.cons_append, List.append_assoc]
    exact ⟨_, rfl⟩
  | cons g fs2 =>
    rw [show renderFields ((k, v) :: g :: fs2)
        = renderField k v ++ ',' :: renderFields (g :: fs2) from rfl]
    simp only [renderField, renderString, List.cons_append, List.append_assoc]
    exact ⟨_, rfl⟩

/-- Parsing rendered members recovers the member list, for any sufficient
fuel. -/
theorem parseObjFields_renderFields :
    ∀ (fs : List (List Char × List Char)) (fuel : ℕ) (rest : List Char),
      fs ≠ [] → fs.length ≤ fuel →
      parseObjFields fuel (renderFields fs ++ '}' :: rest) = some (fs, rest) := by
  intro fs
  induction fs with
  | nil => intro fuel rest hne _; exact absurd rfl hne
  | cons f fs ih =>
    intro fuel rest _ hfuel
    obtain ⟨k, v⟩ := f
    cases fuel with
    | zero => simp at hfuel
    | succ fuel =>
      cases fs with
      | nil =>
        rw [show renderFields [(k, v)] = renderField k v from rfl]
        simp only [renderField, renderString, List.cons_append, List.append_assoc,
          List.singleton_append, List.nil_append]
        rw [parseObjFields.eq_def]
        simp [parseStringBody_escapeString]
      | cons g fs2 =>
        have hrec := ih fuel rest (by simp) (by simp at hfuel ⊢; omega)
        rw [show renderFields ((k, v) :: g :: fs2)
            = renderField k v ++ ',' :: renderFields (g :: fs2) from rfl]
        simp only [renderField, renderString, List.cons_append, List.append_assoc,
          List.singleton_append, List.nil_append]
        rw [parseObjFields.eq_def]
        simp [parseStringBody_escapeString, hrec]

/-- Parsing a rendered non-empty object of string fields recovers exactly
the field list. -/
theorem parseTopObject_renderObj (fs : List (List Char × List Char))
    (hne : fs ≠ []) (t : List Char) (ht : renderFields fs = '"' :: t) :
    parseTopObject (renderObj fs) = some fs := by
  have hlen := renderFields_length_le fs
  rw [ht] at hlen
  have hp := parseObjFields_renderFields fs (t.length + 3) [] hne
    (by simp at hlen; omega)
  rw [ht] at hp
  simp only [List.cons_append, List.append_assoc, List.nil_append] at hp
  unfold parseTopObject renderObj
  rw [ht]
  simp only [List.cons_append, List.append_assoc, List.nil_append]
  simp [hp]

/-- `json.Unmarshal ∘ json.Marshal` on a `domain.Job` recovers the three
tagged fields (`RawID` is not serialized and unmarshals to its zero
value). -/
theorem unmarshalJob_marshalJob (j : Job) :
    unmarshalJob (marshalJob j) = some ⟨j.id, j.code, j.language, []⟩ := by
  obtain ⟨t, ht⟩ := renderFields_cons_head "id".toList j.id
    [("code".toList, j.code), ("language".toList, j.language)]
  unfold marshalJob unmarshalJob
  rw [parseTopObject_renderObj _ (by simp) t ht]
  simp [assignJobField, zeroJob]

/-! ### Bounded log capture lemmas -/

/-- `limitedBuffer.Write` never changes the limit. -/
theorem lbWrite_limit (l : limitedBuffer) (p : List Char) :
    (lbWrite l p).1.limit = l.limit := by
  unfold lbWrite
  split_ifs <;> rfl

/-- The exhaustive case analysis of one `limitedBuffer.Write` on a buffer
within its limit. -/
theorem lbWrite_outcome (l : limitedBuffer) (p : List Char)
    (hinv : l.buf.length ≤ l.limit) : lbWriteOutcome l p := by
  unfold lbWriteOutcome lbWrite
  split_ifs with h1 h2
  · refine Or.inr (Or.inl ?_)
    have hlt : l.buf.length < l.limit := by omega
    have htn : ((l.limit : ℤ) - (l.buf.length : ℤ)).toNat = l.limit - l.buf.length := by
      omega
    refine ⟨rfl, hlt, by rw [htn], ?_, ?_⟩
    · rw [htn]
      simp only [List.length_append, List.length_take]
      omega
    · rw [htn]
      exact List.suffix_append _ _
  · refine Or.inr (Or.inr ⟨rfl, by omega, rfl⟩)
  · exact Or.inl ⟨rfl, rfl, by simp only [List.length_append]; omega⟩

/-- The `stdcopy` loop keeps both captured buffers within
`limit + marker`. -/
theorem stdCopy_inv :
    ∀ (frames : List (Bool × List Char)) (o e : limitedBuffer),
      o.buf.length ≤ o.limit → e.buf.length ≤ e.limit →
      (stdCopy frames o e).1.buf.length ≤ o.limit + logTruncatedMarker.length ∧
      (stdCopy frames o e).2.1.buf.length ≤ e.limit + logTruncatedMarker.length := by
  intro frames
  induction frames with
  | nil => intro o e ho he; simp [stdCopy]; omega
  | cons f rest ih =>
    intro o e ho he
    obtain ⟨b, p⟩ := f
    cases b
    · rcases hw : lbWrite e p with ⟨e2, n, err⟩
      have hout := lbWrite_outcome e p he
      have hlim : e2.limit = e.limit := by
        have := lbWrite_limit e p
        rw [hw] at this
        exact this
      unfold lbWriteOutcome at hout
      rw [hw] at hout
      cases err
      · simp only [stdCopy, hw, Bool.false_eq_true, if_false]
        have he2 : e2.buf.length ≤ e2.limit := by
          rcases hout with ⟨_, _, hb⟩ | ⟨hfalse, _⟩ | ⟨hfalse, _⟩
          · rw [hlim]; exact hb
          · simp at hfalse
          · simp at hfalse
        have := ih o e2 ho he2
        rw [hlim] at this
        exact this
      · simp only [stdCopy, hw, Bool.false_eq_true, if_false]
        constructor
        · omega
        · rcases hout with ⟨hfalse, _⟩ | ⟨_, _, _, hlen, _⟩ | ⟨_, _, hb⟩
          · simp at hfalse
          · rw [hlen]
          · rw [hb]; omega
    · rcases hw : lbWrite o p with ⟨o2, n, err⟩
      have hout := lbWrite_outcome o p ho
      have hlim : o2.limit = o.limit := by
        have := lbWrite_limit o p
        rw [hw] at this
        exact this
      unfold lbWriteOutcome at hout
      rw [hw] at hout
      cases err
      · simp only [stdCopy, hw, if_true]
        have ho2 : o2.buf.length ≤ o2.limit := by
          rcases hout with ⟨_, _, hb⟩ | ⟨hfalse, _⟩ | ⟨hfalse, _⟩
          · rw [hlim]; exact hb
          · simp at hfalse
          · simp at hfalse
        have := ih o2 e ho2 he
        rw [hlim] at this
        exact this
      · simp only [stdCopy, hw, if_true]
        constructor
        · rcases hout with ⟨hfalse, _⟩ | ⟨_, _, _, hlen, _⟩ | ⟨_, _, hb⟩
          · simp at hfalse
          · rw [hlen]
          · rw [hb]; omega
        · omega

/-- C10: The ingress session table is keyed by `job_id` alone (it is a map
from job ids, so it holds at most one connection per job id); a second
session upgrade with the same `job_id` overwrites the first registration,
and a handler's disconnect cleanup deletes the `job_id` entry
unconditionally — so after `register(j, c1)`, `register(j, c2)`,
disconnect-cleanup of the first handler, no session is registered for `j`. -/
theorem session_table_overwrite_and_unconditional_delete
    (j : List Char) (c₁ c₂ : ℕ) (h : Hub) :
    wsRegister j c₂ (wsRegister j c₁ h) j = some c₂ ∧
    wsCleanup j (wsRegister j c₂ (wsRegister j c₁ h)) j = none := by
  constructor <;> simp [wsRegister, wsCleanup]

/-- C4 (evidence at a failing input): `Pool.worker` invokes the runner with
`context.Background()`, which carries no deadline at all — there is no
per-job 30-second deadline, contradicting the claim (and the source's own
comment that the fresh context is created "to ensure independent
timeouts"). -/
theorem worker_invokes_runner_without_deadline :
    (workerInvocation
        ⟨"j1".toList, "while True: pass".toList, "python".toList, "1-1".toList⟩).ctx
        = contextBackground ∧
    (workerInvocation
        ⟨"j1".toList, "while True: pass".toList, "python".toList, "1-1".toList⟩).ctx.deadline
        = none :=
  ⟨rfl, rfl⟩

/-- C3 (evidence at a failing input): `Run` hard-codes the `python:alpine`
image and the `python -c <code>` command for every language tag, and has no
`LanguageUnsupported` path — for `language = "javascript"` it does not
resolve to `node:alpine`, and an unknown tag is not rejected. -/
theorem run_image_resolution_ignores_language :
    imageForLanguage "javascript".toList = "python:alpine".toList ∧
    containerCmd "console.log(1)".toList "javascript".toList
      = ["python".toList, "-c".toList, "console.log(1)".toList] ∧
    languageCheck "cobol".toList = none :=
  ⟨rfl, rfl, rfl⟩

/-- C1 (evidence at a failing input): the recovery routine immediately
`XACK`s every claimed stale entry, whatever its delivery count — an entry
with delivery count 1 (≤ MaxRetries) is removed from the pending list
without being re-delivered, and an entry with delivery count 6
(> MaxRetries) is acknowledged without any dead-letter publish. -/
theorem recovery_acks_unconditionally :
    recoveryTickActions
        [⟨"1700000000000-0".toList, [("job".toList, "p1".toList)], 1⟩,
         ⟨"1700000000000-1".toList, [("job".toList, "p2".toList)], 6⟩]
      = [RecoveryAction.ack "1700000000000-0".toList,
         RecoveryAction.ack "1700000000000-1".toList] :=
  rfl

/-- C9: For every job, encoding it for publication to the stream and then
decoding it from the stream entry (as the subscriber does) yields a job
equal to the original on the fields `id`, `code` and `language` (with
`RawID` set to the stream entry id the subscriber attaches). -/
theorem job_encode_decode_roundtrip (j : Job) (entryId : List Char) :
    decodeEntry (publishEntry entryId j)
      = some { id := j.id, code := j.code, language := j.language,
               rawID := entryId } := by
  unfold publishEntry decodeEntry
  simp [List.lookup, unmarshalJob_marshalJob]

/-- C6 (counterexample): a stream entry with no `job` field is skipped with
no job delivered, but — contrary to the claim — the subscriber issues no
acknowledgement for it: its XACK list is empty and in particular does not
contain the entry's id. -/
theorem malformed_entry_not_acknowledged :
    (subscribeHandle ⟨"1700000000000-0".toList,
        [("data".toList, "oops".toList)]⟩).1 = SubAction.skip ∧
    (subscribeHandle ⟨"1700000000000-0".toList,
        [("data".toList, "oops".toList)]⟩).2.1 = [] ∧
    "1700000000000-0".toList ∉
      (subscribeHandle ⟨"1700000000000-0".toList,
        [("data".toList, "oops".toList)]⟩).2.1 :=
  ⟨rfl, rfl, by decide⟩

/-- C6 (amended): when the subscriber reads a stream entry whose payload
cannot be parsed as a job (missing `job` field or invalid JSON), it logs
the problem and skips the entry without delivering a job, and it does *not*
acknowledge the entry — no XACK is issued on any path of the read loop, so
the entry stays in the pending list for the recovery routine. -/
theorem malformed_entry_skipped_without_ack (msg : StreamEntry) :
    (subscribeHandle msg).2.1 = [] ∧
    ((subscribeHandle msg).1 = SubAction.skip ↔ decodeEntry msg = none) ∧
    (0 < (subscribeHandle msg).2.2.length ↔ decodeEntry msg = none) := by
  unfold subscribeHandle decodeEntry
  cases h1 : msg.values.lookup ("job".toList) with
  | none => simp [h1]
  | some val =>
    cases h2 : unmarshalJob val with
    | none => simp [h1, h2]
    | some job => simp [h1, h2]

/-- C2 (evidence at a failing input): for a finished job the worker
publishes exactly one frame on the log bus, and that (last) frame is not a
`status` frame: its JSON object carries only `job_id` and `output` members
and has neither a `type` nor a `status` key, so no terminal
`status ∈ {completed, failed}` frame is emitted for the job. -/
theorem worker_broadcast_lacks_status_frame :
    workerFrames "j1".toList "hi".toList none
        = [marshalJobResult "j1".toList "hi".toList] ∧
    parseTopObject (marshalJobResult "j1".toList "hi".toList)
        = some [("job_id".toList, "j1".toList), ("output".toList, "hi".toList)] ∧
    List.lookup "type".toList
        [("job_id".toList, "j1".toList), ("output".toList, "hi".toList)] = none ∧
    List.lookup "status".toList
        [("job_id".toList, "j1".toList), ("output".toList, "hi".toList)] = none := by
  refine ⟨rfl, ?_, by decide, by decide⟩
  decide

/-- C7 (amended): for every execution, the captured stdout and stderr
buffers each have length at most the 1 MiB cap plus the marker length; an
overflow stops the copy and does not make `Run` return an error; and a
single overflowing write appends the marker exactly once (as a suffix,
reaching exactly `cap + marker` length) *provided the buffer is not already
exactly full* — an overflow arriving when the buffer holds exactly `cap`
bytes appends nothing, not even the marker. -/
theorem output_bounded_on_truncation (frames : List (Bool × List Char))
    (l : limitedBuffer) (p : List Char) (hinv : l.buf.length ≤ l.limit) :
    (stdCopy frames newLimitedBuffer newLimitedBuffer).1.buf.length
        ≤ maxLogSize + logTruncatedMarker.length ∧
    (stdCopy frames newLimitedBuffer newLimitedBuffer).2.1.buf.length
        ≤ maxLogSize + logTruncatedMarker.length ∧
    captureLogs frames = Except.ok
        ((stdCopy frames newLimitedBuffer newLimitedBuffer).1.buf ++
         (stdCopy frames newLimitedBuffer newLimitedBuffer).2.1.buf) ∧
    lbWriteOutcome l p := by
  have hb := stdCopy_inv frames newLimitedBuffer newLimitedBuffer
    (by simp [newLimitedBuffer]) (by simp [newLimitedBuffer])
  refine ⟨?_, ?_, ?_, lbWrite_outcome l p hinv⟩
  · simpa [newLimitedBuffer] using hb.1
  · simpa [newLimitedBuffer] using hb.2
  · unfold captureLogs
    rcases hs : stdCopy frames newLimitedBuffer newLimitedBuffer with ⟨o, e, err⟩
    cases err <;> simp [hs]

/-- Witness for `output_bounded_on_truncation` at a one-frame execution and
an overflowing write on a small buffer with room left. -/
theorem output_bounded_on_truncation_witness :
    (stdCopy [(true, ['a'])] newLimitedBuffer newLimitedBuffer).1.buf.length
        ≤ maxLogSize + logTruncatedMarker.length ∧
    (stdCopy [(true, ['a'])] newLimitedBuffer newLimitedBuffer).2.1.buf.length
        ≤ maxLogSize + logTruncatedMarker.length ∧
    captureLogs [(true, ['a'])] = Except.ok
        ((stdCopy [(true, ['a'])] newLimitedBuffer newLimitedBuffer).1.buf ++
         (stdCopy [(true, ['a'])] newLimitedBuffer newLimitedBuffer).2.1.buf) ∧
    lbWriteOutcome ⟨['x'], 2⟩ ['y', 'z', 'w'] :=
  output_bounded_on_truncation [(true, ['a'])] ⟨['x'], 2⟩ ['y', 'z', 'w'] (by decide)

/-- A write that fits is appended verbatim. -/
theorem lbWrite_fits (l : limitedBuffer) (p : List Char)
    (h : l.buf.length + p.length ≤ l.limit) :
    lbWrite l p = ({ l with buf := l.buf ++ p }, (p.length : ℤ), false) := by
  unfold lbWrite
  rw [if_neg (by omega)]

/-- A non-empty write to an exactly full buffer returns the limit error and
appends nothing. -/
theorem lbWrite_full (l : limitedBuffer) (p : List Char)
    (h1 : l.buf.length = l.limit) (h2 : 0 < p.length) :
    lbWrite l p = (l, 0, true) := by
  unfold lbWrite
  rw [if_pos (by omega), if_neg (by omega), h1]
  norm_num

/-- Filling a fresh capped buffer to exactly its limit and then writing one
more byte stops the copy with the limit error while leaving the buffer as
the bare cap-sized data (no marker). -/
theorem stdCopy_exact_fill (N : ℕ) (hN : 0 < N) :
    stdCopy [(true, List.replicate N 'a'), (true, ['b'])]
        (⟨[], N⟩ : limitedBuffer) ⟨[], N⟩
      = (⟨List.replicate N 'a', N⟩, ⟨[], N⟩, true) := by
  have h1 : lbWrite ⟨[], N⟩ (List.replicate N 'a')
      = (⟨List.replicate N 'a', N⟩, (N : ℤ), false) := by
    rw [lbWrite_fits _ _ (by rw [List.length_replicate]; simp)]
    rw [List.length_replicate]
    rfl
  have h2 : lbWrite ⟨List.replicate N 'a', N⟩ ['b']
      = (⟨List.replicate N 'a', N⟩, 0, true) :=
    lbWrite_full _ _ (List.length_replicate _ _) (by norm_num)
  simp only [stdCopy, h1, h2, if_true]

/-- C7 (counterexample): when writes fill the stdout buffer to exactly the
1 MiB cap and a further write then overflows it, the copy stops with the
limit error but the truncation marker is *not* appended — the buffer is
left as the bare 1 MiB of data, contradicting the claim that on overflow
the marker is appended once to that stream. -/
theorem overflow_at_exact_cap_omits_marker :
    (stdCopy [(true, List.replicate maxLogSize 'a'), (true, ['b'])]
        newLimitedBuffer newLimitedBuffer).2.2 = true ∧
    (stdCopy [(true, List.replicate maxLogSize 'a'), (true, ['b'])]
        newLimitedBuffer newLimitedBuffer).1.buf = List.replicate maxLogSize 'a' ∧
    ¬ logTruncatedMarker <:+ List.replicate maxLogSize 'a' := by
  have hs := stdCopy_exact_fill maxLogSize (by norm_num [maxLogSize])
  rw [show newLimitedBuffer = ⟨[], maxLogSize⟩ from rfl, hs]
  refine ⟨rfl, rfl, ?_⟩
  intro hsuf
  have hmem : ('\n' : Char) ∈ logTruncatedMarker := by decide
  have hmem2 := hsuf.subset hmem
  have heq := List.eq_of_mem_replicate hmem2
  exact absurd heq (by decide)

end Goxec
